import Mathlib

/-!
# Verification of the sportpools tennis selection core

Shallow embedding of the repository's core logic:

* `rounds_to_score`, `probabilities_to_score` — the two scoring strategies
  (`src/sportpools/emulator.py` and `src/sportpools/model/emulator.py`).
* `seed_to_black_points` — the seed → cost-tier table
  (`TennisPool.determine_black_points` in `src/sportpools/tennis.py`).
* `optimise_selection` — the 0/1 integer-program selection
  (`src/sportpools/tennis.py`), with the external solver modelled as an
  exact optimiser over subsets.
* the bracket emulator's `play_round` / `play_draw` sweep in both variants:
  the unguarded one (`src/sportpools/emulator.py`, which propagates the
  Python `IndexError`) and the guarded one (`src/sportpools/model/emulator.py`,
  whose `try/except IndexError: pass` swallows it).

Floats appear in the sources only as probabilities that are compared and
summed; they are embedded as rationals (`ℚ`).
-/

/-- The fixed round sequence, `ROUNDS` in `src/sportpools/tennis.py`:
a 128-draw knockout has 7 rounds, so the total round count `R` is 7. -/
def ROUNDS : List String := ["r64", "r32", "r16", "qf", "sm", "f", "w"]

/-- `TennisPoolEmulator.rounds_to_score` (both emulator variants):
deterministic score from the number of rounds survived and the player's
black points; `loser` is the elimination-penalty flag. -/
def rounds_to_score (rounds : Int) (black : Int) (loser : Bool) : Int :=
  if loser then rounds * (-10)
  else
    let base_score := rounds * (10 - black)
    let second_week_score := max 0 (rounds - 3) * (10 - black)
    let win_score := if rounds = 7 then 50 else 0
    base_score + second_week_score + win_score

/-- `TennisPoolEmulator.probabilities_to_score`
(`src/sportpools/model/emulator.py`): expectation-based score from the
per-round probability vector.  The Python slices
`round_probs.index[:3]`, `round_probs.index[3:-1]` and `round_probs[-1]`
are the first three entries, the entries from index 3 up to the
second-to-last, and the last entry (`round_probs[-1]` raises on an empty
vector; the embedding defaults it to 0, theorems assume nonemptiness). -/
def probabilities_to_score (round_probs : List ℚ) (black : Int) (loser : Bool) : ℚ :=
  let first_week := ((round_probs.take 3).map (fun p => p * (10 - (black : ℚ)))).sum
  let second_week :=
    (((round_probs.drop 3).dropLast).map (fun p => p * (2 * (10 - (black : ℚ))))).sum
  let win := (round_probs.getLast?.getD 0) * 50
  if loser then ((round_probs.map (fun p => p * (10 - (black : ℚ))))).sum
  else first_week + second_week + win

/-- `seed_to_black_points` inside `TennisPool.determine_black_points`
(`src/sportpools/tennis.py`).  A missing seed (`None`/`NaN` in pandas) is
`none`; `not seed` in Python also covers seed 0. -/
def seed_to_black_points (seed : Option Nat) : Nat :=
  match seed with
  | none => 0
  | some s =>
    if s = 0 ∨ s > 32 then 0
    else if s < 3 then 5
    else if s < 5 then 4
    else if s < 9 then 3
    else if s < 17 then 2
    else 1

/-- C1: with the elimination-penalty flag false, the deterministic score is
`rounds*(10-cost) + max 0 (rounds-3)*(10-cost)` plus a champion bonus of 50
exactly when `rounds` equals the total round count `R = ROUNDS.length = 7`;
in particular rounds=7,cost=0 ↦ 160; rounds=1,cost=0 ↦ 10;
rounds=4,cost=3 ↦ 35; and rounds=0 ↦ 0 for every cost. -/
theorem c1_rounds_to_score_formula (rounds cost : Int) (hr : 0 ≤ rounds) :
    rounds_to_score rounds cost false =
      rounds * (10 - cost) + max 0 (rounds - 3) * (10 - cost) +
        (if rounds = (ROUNDS.length : Int) then 50 else 0) ∧
    rounds_to_score 7 0 false = 160 ∧
    rounds_to_score 1 0 false = 10 ∧
    rounds_to_score 4 3 false = 35 ∧
    (∀ c : Int, rounds_to_score 0 c false = 0) := by
  refine ⟨?_, by decide, by decide, by decide, ?_⟩
  · have hR : ((ROUNDS.length : Nat) : Int) = 7 := by decide
    rw [hR]
    simp [rounds_to_score]
  · intro c
    simp [rounds_to_score]

/-- Closed witness for `c1_rounds_to_score_formula` at rounds = 5, cost = 2. -/
theorem c1_rounds_to_score_formula_witness :
    (0 : Int) ≤ 5 ∧
    (rounds_to_score 5 2 false =
        5 * (10 - 2) + max 0 (5 - 3) * (10 - 2) +
          (if (5 : Int) = (ROUNDS.length : Int) then 50 else 0) ∧
      rounds_to_score 7 0 false = 160 ∧
      rounds_to_score 1 0 false = 10 ∧
      rounds_to_score 4 3 false = 35 ∧
      (∀ c : Int, rounds_to_score 0 c false = 0)) :=
  ⟨by decide, c1_rounds_to_score_formula 5 2 (by decide)⟩

/-- C9: the seed-to-cost mapping returns exactly 5 for seeds 1 and 2, 4 for
seeds 3 and 4, 3 for seeds 5–8, 2 for seeds 9–16, 1 for seeds 17–32, and 0
for seed 0, for seeds above 32 and for a missing seed. -/
theorem c9_seed_tiers (s : Nat) :
    (1 ≤ s ∧ s ≤ 2 → seed_to_black_points (some s) = 5) ∧
    (3 ≤ s ∧ s ≤ 4 → seed_to_black_points (some s) = 4) ∧
    (5 ≤ s ∧ s ≤ 8 → seed_to_black_points (some s) = 3) ∧
    (9 ≤ s ∧ s ≤ 16 → seed_to_black_points (some s) = 2) ∧
    (17 ≤ s ∧ s ≤ 32 → seed_to_black_points (some s) = 1) ∧
    (32 < s → seed_to_black_points (some s) = 0) ∧
    seed_to_black_points (some 0) = 0 ∧
    seed_to_black_points none = 0 := by
  refine ⟨?_, ?_, ?_, ?_, ?_, ?_, by decide, by decide⟩ <;>
    intro h <;> simp only [seed_to_black_points] <;>
    (repeat rw [if_neg (by omega)]) <;> first | rfl | (rw [if_pos (by omega)])

/-- Closed witness for `c9_seed_tiers` at seed 8 (a tier boundary). -/
theorem c9_seed_tiers_witness :
    (5 ≤ 8 ∧ 8 ≤ 8) ∧ seed_to_black_points (some 8) = 3 :=
  ⟨by decide, (c9_seed_tiers 8).2.2.1 (by decide)⟩

/-! ## Probabilistic scoring: sum manipulation helpers -/

theorem map_sum_eq_range_sum (f : ℚ → ℚ) (l : List ℚ) :
    (l.map f).sum = ∑ r ∈ Finset.range l.length, f (l.getD r 0) := by
  induction l with
  | nil => simp
  | cons a l ih =>
    rw [List.map_cons, List.sum_cons, List.length_cons, Finset.sum_range_succ']
    simp only [List.getD_cons_succ, List.getD_cons_zero]
    rw [ih, add_comm]

theorem take_map_sum_eq (f : ℚ → ℚ) (hf : f 0 = 0) (k : Nat) (l : List ℚ) :
    ((l.take k).map f).sum = ∑ r ∈ Finset.range k, f (l.getD r 0) := by
  rw [map_sum_eq_range_sum, List.length_take]
  rw [Finset.sum_subset (Finset.range_subset.2 (min_le_left k l.length))]
  · refine Finset.sum_congr rfl fun r hr => ?_
    rw [Finset.mem_range] at hr
    rw [List.getD_eq_getElem?_getD, List.getD_eq_getElem?_getD, List.getElem?_take,
      if_pos hr]
  · intro r hrk hrm
    rw [Finset.mem_range, not_lt] at hrm
    have hlen : (l.take k).length ≤ r := by rw [List.length_take]; exact hrm
    rw [List.getD_eq_default _ _ hlen, hf]

theorem drop_dropLast_map_sum_eq (f : ℚ → ℚ) (l : List ℚ) :
    (((l.drop 3).dropLast).map f).sum =
      ∑ r ∈ Finset.Ico 3 (l.length - 1), f (l.getD r 0) := by
  rw [map_sum_eq_range_sum, Finset.sum_Ico_eq_sum_range]
  rw [List.length_dropLast, List.length_drop]
  have hb : l.length - 3 - 1 = l.length - 1 - 3 := by omega
  rw [hb]
  refine Finset.sum_congr rfl fun r hr => ?_
  rw [Finset.mem_range] at hr
  congr 1
  have hrlt : r < (l.drop 3).length - 1 := by rw [List.length_drop]; omega
  rw [List.dropLast_eq_take, List.getD_eq_getElem?_getD, List.getD_eq_getElem?_getD,
    List.getElem?_take, if_pos hrlt, List.getElem?_drop]

theorem getLast_getD_eq (l : List ℚ) :
    l.getLast?.getD 0 = l.getD (l.length - 1) 0 := by
  rw [List.getLast?_eq_getElem?, List.getD_eq_getElem?_getD]

/-- C4: for a nonempty probability vector `p` of length `R` and cost `c`,
with the flag false the probabilistic score is
`Σ_{r<3} p[r]·(10−c) + Σ_{3≤r<R−1} p[r]·2(10−c) + p[R−1]·50`,
and with the flag true it is `Σ_{r<R} p[r]·(10−c)`. -/
theorem c4_probabilities_to_score_formula (p : List ℚ) (c : Int) (hp : 1 ≤ p.length) :
    probabilities_to_score p c false =
      (∑ r ∈ Finset.range 3, p.getD r 0 * (10 - (c : ℚ))) +
        (∑ r ∈ Finset.Ico 3 (p.length - 1), p.getD r 0 * (2 * (10 - (c : ℚ)))) +
        p.getD (p.length - 1) 0 * 50 ∧
    probabilities_to_score p c true =
      ∑ r ∈ Finset.range p.length, p.getD r 0 * (10 - (c : ℚ)) := by
  constructor
  · show ((p.take 3).map _).sum + _ + _ = _
    rw [take_map_sum_eq _ (by ring), drop_dropLast_map_sum_eq, getLast_getD_eq]
  · show (p.map _).sum = _
    rw [map_sum_eq_range_sum]

/-- Closed witness for `c4_probabilities_to_score_formula` on a concrete
7-round probability vector. -/
theorem c4_probabilities_to_score_formula_witness :
    1 ≤ ([1, 1/2, 1/4, 1/8, 1/16, 1/32, 1/64] : List ℚ).length ∧
    (probabilities_to_score [1, 1/2, 1/4, 1/8, 1/16, 1/32, 1/64] 2 false =
        (∑ r ∈ Finset.range 3,
            ([1, 1/2, 1/4, 1/8, 1/16, 1/32, 1/64] : List ℚ).getD r 0 * (10 - ((2 : Int) : ℚ))) +
          (∑ r ∈ Finset.Ico 3 (([1, 1/2, 1/4, 1/8, 1/16, 1/32, 1/64] : List ℚ).length - 1),
            ([1, 1/2, 1/4, 1/8, 1/16, 1/32, 1/64] : List ℚ).getD r 0 * (2 * (10 - ((2 : Int) : ℚ)))) +
          ([1, 1/2, 1/4, 1/8, 1/16, 1/32, 1/64] : List ℚ).getD
            (([1, 1/2, 1/4, 1/8, 1/16, 1/32, 1/64] : List ℚ).length - 1) 0 * 50 ∧
      probabilities_to_score [1, 1/2, 1/4, 1/8, 1/16, 1/32, 1/64] 2 true =
        ∑ r ∈ Finset.range ([1, 1/2, 1/4, 1/8, 1/16, 1/32, 1/64] : List ℚ).length,
          ([1, 1/2, 1/4, 1/8, 1/16, 1/32, 1/64] : List ℚ).getD r 0 * (10 - ((2 : Int) : ℚ))) :=
  ⟨by decide, c4_probabilities_to_score_formula [1, 1/2, 1/4, 1/8, 1/16, 1/32, 1/64] 2 (by decide)⟩

/-! ## One-hot probability vectors (refinement between the two strategies) -/

/-- The length-`n` probability vector with all mass on round `r`. -/
def oneHot (n r : Nat) : List ℚ :=
  (List.range n).map (fun j => if j = r then 1 else 0)

/-- C8 counterexample: with all mass on round 1 and cost 0, the
probabilistic score is 10, while the deterministic score for rounds = 2 at
the same cost is 20 — the two strategies do not agree on one-hot vectors. -/
theorem c8_one_hot_counterexample :
    probabilities_to_score (oneHot 7 1) 0 false ≠
      ((rounds_to_score (1 + 1) 0 false : Int) : ℚ) := by
  rw [show oneHot 7 1 = [0, 1, 0, 0, 0, 0, 0] from by decide]
  norm_num [probabilities_to_score, rounds_to_score, List.dropLast, List.getLast?]

/-- C8 amended: with the elimination-penalty flag false, the probabilistic
score of the one-hot vector at round `r < R−1` equals the increment
`rounds_to_score (r+1) − rounds_to_score r` of the deterministic score at
the same cost (not the full deterministic score for `rounds = r+1`); at
`r = R−1` it is exactly 50, which falls short of the deterministic
increment by `2·(10−cost)`. -/
theorem c8_one_hot_amended (r : Nat) (c : Int) (hr : r < 7) :
    (r < 6 → probabilities_to_score (oneHot 7 r) c false =
      ((rounds_to_score ((r : Int) + 1) c false - rounds_to_score (r : Int) c false : Int) : ℚ)) ∧
    (r = 6 → probabilities_to_score (oneHot 7 r) c false = 50) := by
  interval_cases r <;>
    constructor <;>
    intro h <;>
    first
      | omega
      | ((simp only [show oneHot 7 0 = [1, 0, 0, 0, 0, 0, 0] from by decide,
            show oneHot 7 1 = [0, 1, 0, 0, 0, 0, 0] from by decide,
            show oneHot 7 2 = [0, 0, 1, 0, 0, 0, 0] from by decide,
            show oneHot 7 3 = [0, 0, 0, 1, 0, 0, 0] from by decide,
            show oneHot 7 4 = [0, 0, 0, 0, 1, 0, 0] from by decide,
            show oneHot 7 5 = [0, 0, 0, 0, 0, 1, 0] from by decide,
            show oneHot 7 6 = [0, 0, 0, 0, 0, 0, 1] from by decide]
          norm_num [probabilities_to_score, rounds_to_score, List.dropLast,
            List.getLast?]) <;> (push_cast; ring))

/-- Closed witness for `c8_one_hot_amended` at r = 3, cost = 1. -/
theorem c8_one_hot_amended_witness :
    3 < 7 ∧
    ((3 < 6 → probabilities_to_score (oneHot 7 3) 1 false =
        ((rounds_to_score ((3 : Int) + 1) 1 false - rounds_to_score (3 : Int) 1 false : Int) : ℚ)) ∧
      (3 = 6 → probabilities_to_score (oneHot 7 3) 1 false = 50)) :=
  ⟨by decide, c8_one_hot_amended 3 1 (by decide)⟩

/-! ## Selection optimiser -/

/-- One row of the schedule table as consumed by `optimise_selection`:
player name, simulated rounds survived, potency and black points. -/
structure Row where
  player : String
  rounds : Int
  potency : ℚ
  black : Int
deriving DecidableEq

/-- The binary integer program built by `optimise_selection`
(`src/sportpools/tennis.py`): maximise `Σ potency_i·x_i` subject to
`Σ x_i = selection_limit`, `Σ black_i·x_i ≤ black_points_limit`,
`x_i ∈ {0,1}`.  The spec (§4.3) treats the external solver (pulp/CBC) as an
opaque exact black box, so it is modelled as an exact optimiser: a 0/1
assignment is a subsequence of the row list, and among the feasible ones a
total-potency maximiser is returned, `none` when the program is infeasible. -/
def pulpSolve (rows : List Row) (selection_limit : Nat) (black_points_limit : Int) :
    Option (List Row) :=
  ((rows.sublists).filter fun s =>
      decide (s.length = selection_limit ∧ (s.map Row.black).sum ≤ black_points_limit)).argmax
    (fun s => (s.map Row.potency).sum)

/-- `optimise_selection` (`src/sportpools/tennis.py`): formulate the
program, call the solver, read each `x_i.varValue` and keep the names of
the players whose indicator is set, then return
`schedule[schedule['player'].isin(player_selection)]`.  The solver status
is never inspected: when the program is infeasible no indicator is set,
`player_selection` is empty, and the empty table is returned silently. -/
def optimise_selection (schedule : List Row) (selection_limit : Nat)
    (black_points_limit : Int) : List Row :=
  let player_selection : List String :=
    match pulpSolve schedule selection_limit black_points_limit with
    | some s => s.map Row.player
    | none => []
  schedule.filter (fun r => decide (r.player ∈ player_selection))

/-- Filtering a table with unique player names by membership of the names
of a subsequence recovers exactly that subsequence. -/
theorem filter_mem_names_of_sublist {s l : List Row} (hs : s.Sublist l) :
    (l.map Row.player).Nodup →
      l.filter (fun r => decide (r.player ∈ s.map Row.player)) = s := by
  induction hs with
  | slnil => intro _; rfl
  | @cons s l a hsub ih =>
    intro hnd
    rw [List.map_cons, List.nodup_cons] at hnd
    rw [List.filter_cons, if_neg, ih hnd.2]
    simp only [decide_eq_true_eq]
    intro hmem
    exact hnd.1 ((hsub.map Row.player).subset hmem)
  | @cons₂ s l a hsub ih =>
    intro hnd
    rw [List.map_cons, List.nodup_cons] at hnd
    rw [List.filter_cons, if_pos (by simp), List.filter_congr, ih hnd.2]
    intro x hx
    simp only [List.map_cons, List.mem_cons]
    have hxa : x.player ≠ a.player := by
      intro he
      exact hnd.1 (he ▸ List.mem_map_of_mem Row.player hx)
    rw [decide_eq_decide]
    exact or_iff_right hxa

/-- C2: for every competitor table with unique names, positive selection
limit K and non-negative budget B admitting a feasible subset, the returned
selection has exactly K members, total cost at most B, and no K-subset
within budget has strictly greater total potency. -/
theorem c2_optimise_selection_optimal (schedule : List Row) (K : Nat) (B : Int)
    (hK : 0 < K) (hB : 0 ≤ B)
    (hnd : (schedule.map Row.player).Nodup)
    (hfeas : ∃ s ∈ schedule.sublists, s.length = K ∧ (s.map Row.black).sum ≤ B) :
    (optimise_selection schedule K B).length = K ∧
    ((optimise_selection schedule K B).map Row.black).sum ≤ B ∧
    ∀ t ∈ schedule.sublists, t.length = K → (t.map Row.black).sum ≤ B →
      (t.map Row.potency).sum ≤ ((optimise_selection schedule K B).map Row.potency).sum := by
  obtain ⟨s₀, hs₀m, hs₀len, hs₀c⟩ := hfeas
  have h₀ : s₀ ∈ (schedule.sublists).filter fun s =>
      decide (s.length = K ∧ (s.map Row.black).sum ≤ B) :=
    List.mem_filter.2 ⟨hs₀m, by simp [hs₀len, hs₀c]⟩
  cases hp : pulpSolve schedule K B with
  | none =>
    exfalso
    unfold pulpSolve at hp
    rw [List.argmax_eq_none] at hp
    rw [hp] at h₀
    exact absurd h₀ (List.not_mem_nil s₀)
  | some s =>
    have hsm : s ∈ (schedule.sublists).filter fun s =>
        decide (s.length = K ∧ (s.map Row.black).sum ≤ B) := by
      unfold pulpSolve at hp
      exact List.argmax_mem (Option.mem_def.2 hp)
    obtain ⟨hssub, hsprop⟩ := List.mem_filter.1 hsm
    rw [decide_eq_true_eq] at hsprop
    have hres : optimise_selection schedule K B = s := by
      unfold optimise_selection
      rw [hp]
      exact filter_mem_names_of_sublist (List.mem_sublists.1 hssub) hnd
    rw [hres]
    refine ⟨hsprop.1, hsprop.2, fun t htm htlen htc => ?_⟩
    have htf : t ∈ (schedule.sublists).filter fun s =>
        decide (s.length = K ∧ (s.map Row.black).sum ≤ B) :=
      List.mem_filter.2 ⟨htm, by simp [htlen, htc]⟩
    unfold pulpSolve at hp
    exact List.le_of_mem_argmax (f := fun u => (u.map Row.potency).sum) htf
      (Option.mem_def.2 hp)

/-- Closed witness for `c2_optimise_selection_optimal`: three players,
K = 2, B = 7. -/
theorem c2_optimise_selection_optimal_witness :
    (0 < 2 ∧ (0 : Int) ≤ 7 ∧
      (([⟨"A", 7, 90, 5⟩, ⟨"B", 6, 80, 4⟩, ⟨"C", 5, 60, 2⟩] : List Row).map
          Row.player).Nodup ∧
      ∃ s ∈ ([⟨"A", 7, 90, 5⟩, ⟨"B", 6, 80, 4⟩, ⟨"C", 5, 60, 2⟩] : List Row).sublists,
        s.length = 2 ∧ (s.map Row.black).sum ≤ 7) ∧
    (optimise_selection [⟨"A", 7, 90, 5⟩, ⟨"B", 6, 80, 4⟩, ⟨"C", 5, 60, 2⟩] 2 7).length = 2 ∧
    ((optimise_selection [⟨"A", 7, 90, 5⟩, ⟨"B", 6, 80, 4⟩, ⟨"C", 5, 60, 2⟩] 2 7).map
        Row.black).sum ≤ 7 ∧
    ∀ t ∈ ([⟨"A", 7, 90, 5⟩, ⟨"B", 6, 80, 4⟩, ⟨"C", 5, 60, 2⟩] : List Row).sublists,
      t.length = 2 → (t.map Row.black).sum ≤ 7 →
        (t.map Row.potency).sum ≤
          ((optimise_selection [⟨"A", 7, 90, 5⟩, ⟨"B", 6, 80, 4⟩, ⟨"C", 5, 60, 2⟩] 2 7).map
              Row.potency).sum :=
  ⟨⟨by decide, by decide, by decide, by decide⟩,
    c2_optimise_selection_optimal _ 2 7 (by decide) (by decide) (by decide) (by decide)⟩

/-- C7: the code never inspects the solver status.  On the infeasible
input below (a single competitor with a selection limit of 2) the
optimiser silently returns the empty selection instead of failing with an
explicit infeasibility error. -/
theorem c7_infeasible_returns_empty_silently :
    optimise_selection [⟨"Rafael Nadal", 5, 100, 5⟩] 2 20 = [] := by
  decide

/-! ## Forced pick ("designated loser")

`src/sportpools/__main__.py` calls `optimise_selection(..., rounds=ROUNDS,
loser=args.loser)` from `sportpools.model.tennis`, a module that is not
among the sources; only its caller is.  The forced-pick behaviour below is
therefore modelled from the spec (§4.3). -/

/-- Modelled from the spec: lower-casing a name character by character,
for the case-insensitive match (`str.lower()` comparison). -/
def lowerName (s : String) : List Char :=
  s.data.map Char.toLower

/-- Modelled from the spec: the case-insensitive name match used to locate
the forced competitor (`forcedName (case-insensitive match against
competitor names)`). -/
def nameMatches (a b : String) : Bool :=
  decide (lowerName a = lowerName b)

/-- Modelled from the spec: the competitor table with the forced
competitor's potency recomputed under the elimination-penalty scoring
variant, overriding its normal potency. -/
def forcedTable (schedule : List Row) (name : String) : List Row :=
  schedule.map fun r =>
    if nameMatches r.player name then
      { r with potency := ((rounds_to_score r.rounds r.black true : Int) : ℚ) }
    else r

/-- Modelled from the spec: the solver call for the forced-pick program —
cardinality `effectiveK`, budget `effectiveB`, and the pinning constraint
fixing the forced competitor's indicator to 1. -/
def pulpSolveForced (rows : List Row) (effectiveK : Nat) (effectiveB : Int)
    (pin : Row → Bool) : Option (List Row) :=
  ((rows.sublists).filter fun s =>
      decide (s.length = effectiveK ∧ (s.map Row.black).sum ≤ effectiveB ∧
        s.any pin = true)).argmax
    (fun s => (s.map Row.potency).sum)

/-- Modelled from the spec: `optimise_selection` with a forced pick
(`sportpools/model/tennis.py`, absent from the sources).  When the forced
name matches a competitor, its potency is recomputed with the
elimination-penalty variant, the cardinality constraint becomes K+1, the
budget becomes B plus the forced competitor's cost, and its indicator is
pinned to 1; when the name matches nothing the plain optimisation runs. -/
def optimise_selection_forced (schedule : List Row) (selection_limit : Nat)
    (black_points_limit : Int) : Option String → List Row
  | none => optimise_selection schedule selection_limit black_points_limit
  | some name =>
    match schedule.find? (fun r => nameMatches r.player name) with
    | none => optimise_selection schedule selection_limit black_points_limit
    | some f =>
      let table := forcedTable schedule name
      let sel := pulpSolveForced table (selection_limit + 1)
        (black_points_limit + f.black) (fun r => nameMatches r.player name)
      let player_selection : List String :=
        match sel with
        | some s => s.map Row.player
        | none => []
      table.filter (fun r => decide (r.player ∈ player_selection))

theorem forcedTable_map_player (schedule : List Row) (name : String) :
    (forcedTable schedule name).map Row.player = schedule.map Row.player := by
  unfold forcedTable
  rw [List.map_map]
  refine List.map_congr_left fun r _ => ?_
  by_cases h : nameMatches r.player name = true
  · simp [h, Function.comp]
  · simp [h, Function.comp]

/-- In a table whose lowercased names are unique, the only row of the
forced table matching the forced name is the potency-overridden image of
the row `find?` located. -/
theorem mem_forcedTable_matches {schedule : List Row} {name : String} {f : Row}
    (hndl : (schedule.map fun r => lowerName r.player).Nodup)
    (hfind : schedule.find? (fun r => nameMatches r.player name) = some f) :
    ∀ r ∈ forcedTable schedule name, nameMatches r.player name = true →
      r = { f with potency := ((rounds_to_score f.rounds f.black true : Int) : ℚ) } := by
  intro r hr hmatch
  obtain ⟨r₀, hr₀, hmap⟩ := List.mem_map.1 hr
  have hf_mem : f ∈ schedule := List.mem_of_find?_eq_some hfind
  have hf_match : nameMatches f.player name = true := by
    have h := List.find?_some (p := fun (r : Row) => nameMatches r.player name) hfind
    exact h
  by_cases h₀ : nameMatches r₀.player name = true
  · rw [if_pos h₀] at hmap
    have hr₀f : r₀ = f := by
      refine List.inj_on_of_nodup_map hndl hr₀ hf_mem ?_
      rw [nameMatches, decide_eq_true_eq] at h₀ hf_match
      rw [h₀, hf_match]
    rw [← hmap, hr₀f]
  · rw [if_neg h₀] at hmap
    rw [← hmap] at hmatch
    exact absurd hmatch h₀

/-- C6: when the forced name matches a competitor (case-insensitively),
the returned selection contains that competitor with its potency
recomputed under the elimination-penalty variant, has K+1 members, and has
total cost at most B plus the forced competitor's cost. -/
theorem c6_forced_pick (schedule : List Row) (K : Nat) (B : Int) (name : String) (f : Row)
    (hndl : (schedule.map fun r => lowerName r.player).Nodup)
    (hfind : schedule.find? (fun r => nameMatches r.player name) = some f)
    (hfeas : ∃ s ∈ (forcedTable schedule name).sublists,
        s.length = K + 1 ∧ (s.map Row.black).sum ≤ B + f.black ∧
          s.any (fun r => nameMatches r.player name) = true) :
    { f with potency := ((rounds_to_score f.rounds f.black true : Int) : ℚ) } ∈
        optimise_selection_forced schedule K B (some name) ∧
      (optimise_selection_forced schedule K B (some name)).length = K + 1 ∧
      ((optimise_selection_forced schedule K B (some name)).map Row.black).sum
        ≤ B + f.black := by
  obtain ⟨s₀, hs₀m, hs₀len, hs₀c, hs₀pin⟩ := hfeas
  have h₀ : s₀ ∈ ((forcedTable schedule name).sublists).filter fun s =>
      decide (s.length = K + 1 ∧ (s.map Row.black).sum ≤ B + f.black ∧
        s.any (fun r => nameMatches r.player name) = true) :=
    List.mem_filter.2 ⟨hs₀m, by simp [hs₀len, hs₀c, hs₀pin]⟩
  have hnd : ((forcedTable schedule name).map Row.player).Nodup := by
    rw [forcedTable_map_player]
    have h2 : ((schedule.map Row.player).map lowerName).Nodup := by
      rw [List.map_map]; exact hndl
    exact h2.of_map
  have hstep : optimise_selection_forced schedule K B (some name) =
      (forcedTable schedule name).filter (fun r => decide (r.player ∈
        (match pulpSolveForced (forcedTable schedule name) (K + 1) (B + f.black)
            (fun r => nameMatches r.player name) with
          | some s => s.map Row.player
          | none => []))) := by
    simp only [optimise_selection_forced]
    rw [hfind]
  cases hp : pulpSolveForced (forcedTable schedule name) (K + 1) (B + f.black)
      (fun r => nameMatches r.player name) with
  | none =>
    exfalso
    unfold pulpSolveForced at hp
    rw [List.argmax_eq_none] at hp
    rw [hp] at h₀
    exact absurd h₀ (List.not_mem_nil s₀)
  | some s =>
    have hsm : s ∈ ((forcedTable schedule name).sublists).filter fun s =>
        decide (s.length = K + 1 ∧ (s.map Row.black).sum ≤ B + f.black ∧
          s.any (fun r => nameMatches r.player name) = true) := by
      unfold pulpSolveForced at hp
      exact List.argmax_mem (Option.mem_def.2 hp)
    obtain ⟨hssub, hsprop⟩ := List.mem_filter.1 hsm
    rw [decide_eq_true_eq] at hsprop
    have hres : optimise_selection_forced schedule K B (some name) = s := by
      rw [hstep, hp]
      exact filter_mem_names_of_sublist (List.mem_sublists.1 hssub) hnd
    rw [hres]
    refine ⟨?_, hsprop.1, hsprop.2.1⟩
    obtain ⟨r, hrs, hrpin⟩ := List.any_eq_true.1 hsprop.2.2
    have hreq := mem_forcedTable_matches hndl hfind r
      ((List.mem_sublists.1 hssub).subset hrs) hrpin
    rw [← hreq]
    exact hrs

/-- Closed witness for `c6_forced_pick`: three players, forced pick
"rafael nadal" (lower case, matching "Rafael Nadal"), K = 1, B = 6. -/
theorem c6_forced_pick_witness :
    ((([⟨"Roger Federer", 6, 90, 4⟩, ⟨"Rafael Nadal", 5, 80, 5⟩,
          ⟨"Novak Djokovic", 6, 85, 2⟩] : List Row).map fun r => lowerName r.player).Nodup ∧
      ([⟨"Roger Federer", 6, 90, 4⟩, ⟨"Rafael Nadal", 5, 80, 5⟩,
          ⟨"Novak Djokovic", 6, 85, 2⟩] : List Row).find?
          (fun r => nameMatches r.player "rafael nadal") = some ⟨"Rafael Nadal", 5, 80, 5⟩ ∧
      ∃ s ∈ (forcedTable [⟨"Roger Federer", 6, 90, 4⟩, ⟨"Rafael Nadal", 5, 80, 5⟩,
          ⟨"Novak Djokovic", 6, 85, 2⟩] "rafael nadal").sublists,
        s.length = 1 + 1 ∧
          (s.map Row.black).sum ≤ 6 + (⟨"Rafael Nadal", 5, 80, 5⟩ : Row).black ∧
          s.any (fun r => nameMatches r.player "rafael nadal") = true) ∧
    ((⟨"Rafael Nadal", 5, ((rounds_to_score 5 5 true : Int) : ℚ), 5⟩ : Row) ∈
        optimise_selection_forced [⟨"Roger Federer", 6, 90, 4⟩, ⟨"Rafael Nadal", 5, 80, 5⟩,
          ⟨"Novak Djokovic", 6, 85, 2⟩] 1 6 (some "rafael nadal") ∧
      (optimise_selection_forced [⟨"Roger Federer", 6, 90, 4⟩, ⟨"Rafael Nadal", 5, 80, 5⟩,
          ⟨"Novak Djokovic", 6, 85, 2⟩] 1 6 (some "rafael nadal")).length = 1 + 1 ∧
      ((optimise_selection_forced [⟨"Roger Federer", 6, 90, 4⟩, ⟨"Rafael Nadal", 5, 80, 5⟩,
          ⟨"Novak Djokovic", 6, 85, 2⟩] 1 6 (some "rafael nadal")).map Row.black).sum
        ≤ 6 + (⟨"Rafael Nadal", 5, 80, 5⟩ : Row).black) :=
  ⟨⟨by decide, by decide, by decide⟩,
    c6_forced_pick [⟨"Roger Federer", 6, 90, 4⟩, ⟨"Rafael Nadal", 5, 80, 5⟩,
        ⟨"Novak Djokovic", 6, 85, 2⟩] 1 6 "rafael nadal" ⟨"Rafael Nadal", 5, 80, 5⟩
      (by decide) (by decide) (by decide)⟩

/-! ## Bracket emulator

`play_round` walks the `standings` list with an index: the outer loop
checks `index < len(standings)`, but the two inner
`while standings[index].terminated: index += 1` scans and the subsequent
accesses do not re-check the bounds, so they raise `IndexError` when they
run past the end of the list.  `src/sportpools/emulator.py` propagates the
error; `src/sportpools/model/emulator.py` wraps the sweep in
`try/except IndexError: pass`, keeping all mutations made before the error
and silently finishing the round. -/

/-- A competitor during simulation: the `Player` fields read by
`play_round` (`player`, `seed`, `round_odds`, `terminated`,
`round_index`), plus the player's row of per-round odds from the schedule
(`__get_round_odds` looks odds up by name; names are unique, so the lookup
returns the player's own row, carried here as `probs`).  The `loser` field
is never read during simulation and the `index` field is only written back
to the same position (a no-op); both are dropped. -/
structure SimPlayer where
  player : String
  seed : Int
  probs : List ℚ
  round_odds : ℚ
  terminated : Bool
  round_index : Nat
deriving DecidableEq

/-- `Player.__gt__`: whether `a` beats `b`, by strictly greater odds for
the current round. -/
def playerGT (a b : SimPlayer) : Bool :=
  decide (b.round_odds < a.round_odds)

/-- One match (lines 130–141 of `play_round`): the winner's `round_index`
is incremented and the loser is terminated; on equal odds
`player_one > player_two` is false, so the else branch runs. -/
def playMatch (p1 p2 : SimPlayer) : SimPlayer × SimPlayer :=
  if playerGT p1 p2 then
    ({ p1 with round_index := p1.round_index + 1 }, { p2 with terminated := true })
  else
    ({ p1 with terminated := true }, { p2 with round_index := p2.round_index + 1 })

/-- Lines 109–112 of `play_round`: every player (terminated ones included)
is assigned its odds for the round, here the entry of its `probs` row at
the round's position in the round sequence. -/
def assignOdds (r : Nat) (l : List SimPlayer) : List SimPlayer :=
  l.map fun p => { p with round_odds := p.probs.getD r 0 }

/-- The Python `IndexError` raised by an out-of-bounds list access. -/
inductive EmuError where
  | indexOutOfRange
deriving DecidableEq

/-- Control state of the `while` sweep in `play_round`: `entry` is the top
of the outer loop (where `index < len` is checked), `seekOne` is the inner
scan for `player_one` and `seekTwo p1` the inner scan for `player_two`
(both without bounds checks). -/
inductive SweepState where
  | entry
  | seekOne
  | seekTwo (p1 : SimPlayer)
deriving DecidableEq

/-- The match sweep of `play_round` in `src/sportpools/emulator.py`
(lines 115–143), which propagates the `IndexError` of an inner scan that
runs past the end of the list. -/
def sweepE : SweepState → List SimPlayer → Except EmuError (List SimPlayer)
  | .entry, [] => .ok []
  | .entry, p :: rest =>
    if p.terminated then (fun t => p :: t) <$> sweepE .seekOne rest
    else sweepE (.seekTwo p) rest
  | .seekOne, [] => .error .indexOutOfRange
  | .seekOne, p :: rest =>
    if p.terminated then (fun t => p :: t) <$> sweepE .seekOne rest
    else sweepE (.seekTwo p) rest
  | .seekTwo _, [] => .error .indexOutOfRange
  | .seekTwo p1, q :: rest =>
    if q.terminated then
      (fun t =>
        match t with
        | p1x :: tail => p1x :: q :: tail
        | [] => [q]) <$> sweepE (.seekTwo p1) rest
    else
      (fun t => (playMatch p1 q).1 :: (playMatch p1 q).2 :: t) <$> sweepE .entry rest

/-- The same sweep under `try/except IndexError: pass`
(`src/sportpools/model/emulator.py`, lines 124–156): when a scan runs past
the end, the matches already played stand, the error is swallowed, and the
players not yet paired stay as they are. -/
def sweepG : SweepState → List SimPlayer → List SimPlayer
  | .entry, [] => []
  | .entry, p :: rest =>
    if p.terminated then p :: sweepG .seekOne rest
    else sweepG (.seekTwo p) rest
  | .seekOne, [] => []
  | .seekOne, p :: rest =>
    if p.terminated then p :: sweepG .seekOne rest
    else sweepG (.seekTwo p) rest
  | .seekTwo p1, [] => [p1]
  | .seekTwo p1, q :: rest =>
    if q.terminated then
      match sweepG (.seekTwo p1) rest with
      | p1x :: tail => p1x :: q :: tail
      | [] => [p1, q]
    else
      (playMatch p1 q).1 :: (playMatch p1 q).2 :: sweepG .entry rest

/-- `play_round` (`src/sportpools/emulator.py`): assign the round's odds,
then sweep the matches; `r` is the round's position in the round
sequence. -/
def play_round (r : Nat) (l : List SimPlayer) : Except EmuError (List SimPlayer) :=
  sweepE .entry (assignOdds r l)

/-- `play_draw` (`src/sportpools/emulator.py`): play the rounds in
sequence order; an `IndexError` aborts the draw. -/
def play_draw (rounds : List Nat) (l : List SimPlayer) : Except EmuError (List SimPlayer) :=
  rounds.foldlM (fun acc r => play_round r acc) l

/-- `play_round` (`src/sportpools/model/emulator.py`): the guarded
variant. -/
def play_round_model (r : Nat) (l : List SimPlayer) : List SimPlayer :=
  sweepG .entry (assignOdds r l)

/-- `play_draw` (`src/sportpools/model/emulator.py`): the guarded
variant. -/
def play_draw_model (rounds : List Nat) (l : List SimPlayer) : List SimPlayer :=
  rounds.foldl (fun acc r => play_round_model r acc) l

/-- One row of the schedule as fed to the emulator. -/
structure DrawRow where
  player : String
  seed : Int
  probs : List ℚ
deriving DecidableEq

/-- The `standings` initialisation in `play_round`:
`Player(x['player'], x['seed'], -1)` — odds −1, not terminated,
`round_index` 0. -/
def initStandings (schedule : List DrawRow) : List SimPlayer :=
  schedule.map fun x => ⟨x.player, x.seed, x.probs, -1, false, 0⟩

/-- The number of still-active (not terminated) players. -/
def activeCount (l : List SimPlayer) : Nat :=
  l.countP fun p => !p.terminated

/-- The total of all `round_index` values (rounds survived). -/
def sumRounds (l : List SimPlayer) : Nat :=
  (l.map SimPlayer.round_index).sum

theorem activeCount_nil : activeCount [] = 0 := rfl

theorem activeCount_cons_term {p : SimPlayer} (l : List SimPlayer)
    (h : p.terminated = true) : activeCount (p :: l) = activeCount l := by
  simp [activeCount, List.countP_cons, h]

theorem activeCount_cons_act {p : SimPlayer} (l : List SimPlayer)
    (h : p.terminated = false) : activeCount (p :: l) = activeCount l + 1 := by
  simp [activeCount, List.countP_cons, h]

theorem sumRounds_nil : sumRounds [] = 0 := rfl

theorem sumRounds_cons (p : SimPlayer) (l : List SimPlayer) :
    sumRounds (p :: l) = p.round_index + sumRounds l := by
  simp [sumRounds]

theorem activeCount_assignOdds (r : Nat) (l : List SimPlayer) :
    activeCount (assignOdds r l) = activeCount l := by
  rw [activeCount, assignOdds, List.countP_map]
  rfl

theorem sumRounds_assignOdds (r : Nat) (l : List SimPlayer) :
    sumRounds (assignOdds r l) = sumRounds l := by
  rw [sumRounds, assignOdds, List.map_map]
  rfl

theorem length_assignOdds (r : Nat) (l : List SimPlayer) :
    (assignOdds r l).length = l.length := by
  simp [assignOdds]

theorem forall_assignOdds {P : Bool → Nat → Prop} {r : Nat} {l : List SimPlayer}
    (h : ∀ p ∈ l, P p.terminated p.round_index) :
    ∀ p ∈ assignOdds r l, P p.terminated p.round_index := by
  intro p hp
  obtain ⟨q, hq, hqe⟩ := List.mem_map.1 hp
  rw [← hqe]
  exact h q hq

/-- The sweep inputs: the pending `player_one` of `seekTwo` still belongs
to the segment of the standings being processed. -/
def stateInput : SweepState → List SimPlayer → List SimPlayer
  | .entry, l => l
  | .seekOne, l => l
  | .seekTwo p1, l => p1 :: l

theorem sweepG_length : ∀ (l : List SimPlayer) (s : SweepState),
    (sweepG s l).length = (stateInput s l).length := by
  intro l
  induction l with
  | nil => intro s; cases s <;> rfl
  | cons q rest ih =>
    intro s
    cases s with
    | entry =>
      cases hq : q.terminated with
      | true => simp [sweepG, hq, stateInput, ih .seekOne]
      | false =>
        have h2 := ih (.seekTwo q)
        simp [sweepG, hq, stateInput] at h2 ⊢
        omega
    | seekOne =>
      cases hq : q.terminated with
      | true => simp [sweepG, hq, stateInput, ih .seekOne]
      | false =>
        have h2 := ih (.seekTwo q)
        simp [sweepG, hq, stateInput] at h2 ⊢
        omega
    | seekTwo p1 =>
      cases hq : q.terminated with
      | true =>
        have h2 := ih (.seekTwo p1)
        simp only [stateInput, List.length_cons] at h2
        cases hsw : sweepG (.seekTwo p1) rest with
        | nil => rw [hsw] at h2; simp at h2
        | cons p1x tail =>
          rw [hsw] at h2
          simp only [List.length_cons] at h2
          simp [sweepG, hq, hsw, stateInput]
          omega
      | false =>
        have h2 := ih .entry
        simp [sweepG, hq, stateInput] at h2 ⊢
        omega

/-- One match between two active players: exactly one of the two comes out
active with its `round_index` incremented; the other is terminated with
its `round_index` kept. -/
theorem playMatch_spec (p1 q : SimPlayer) (h1 : p1.terminated = false)
    (h2 : q.terminated = false) :
    ((playMatch p1 q).1.terminated = false ∧ (playMatch p1 q).2.terminated = true ∧
      (playMatch p1 q).1.round_index = p1.round_index + 1 ∧
      (playMatch p1 q).2.round_index = q.round_index) ∨
    ((playMatch p1 q).1.terminated = true ∧ (playMatch p1 q).2.terminated = false ∧
      (playMatch p1 q).1.round_index = p1.round_index ∧
      (playMatch p1 q).2.round_index = q.round_index + 1) := by
  unfold playMatch
  by_cases hgt : playerGT p1 q = true
  · left; simp [hgt, h1]
  · right; simp [hgt, h2]

/-- The guarded sweep over a segment with an even number of active
players: each consecutive active pair plays exactly one match, so the
active count halves, every surviving player's `round_index` moves from `c`
to `c+1`, every eliminated player keeps a value below `c+1`, and the total
of `round_index` rises by the number of matches played. -/
theorem sweepG_even : ∀ (l : List SimPlayer) (s : SweepState) (c : Nat),
    (match s with | .seekTwo p1 => p1.terminated = false | _ => True) →
    activeCount (stateInput s l) % 2 = 0 →
    (∀ p ∈ stateInput s l, p.terminated = false → p.round_index = c) →
    (∀ p ∈ stateInput s l, p.terminated = true → p.round_index < c) →
    2 * activeCount (sweepG s l) = activeCount (stateInput s l) ∧
    (∀ p ∈ sweepG s l, p.terminated = false → p.round_index = c + 1) ∧
    (∀ p ∈ sweepG s l, p.terminated = true → p.round_index < c + 1) ∧
    2 * sumRounds (sweepG s l) = 2 * sumRounds (stateInput s l) + activeCount (stateInput s l) := by
  intro l
  induction l with
  | nil =>
    intro s c hOK hpar hact hterm
    cases s with
    | entry => simp [sweepG, stateInput, activeCount_nil, sumRounds_nil]
    | seekOne => simp [sweepG, stateInput, activeCount_nil, sumRounds_nil]
    | seekTwo p1 =>
      exfalso
      rw [stateInput, activeCount_cons_act _ hOK, activeCount_nil] at hpar
      omega
  | cons q rest ih =>
    intro s c hOK hpar hact hterm
    cases s with
    | entry =>
      simp only [stateInput] at hpar hact hterm ⊢
      cases hq : q.terminated with
      | true =>
        rw [activeCount_cons_term _ hq] at hpar
        have ih' := ih .seekOne c trivial hpar
          (fun p hp => hact p (List.mem_cons_of_mem _ hp))
          (fun p hp => hterm p (List.mem_cons_of_mem _ hp))
        simp only [stateInput] at ih'
        simp only [sweepG, hq, if_pos]
        refine ⟨?_, ?_, ?_, ?_⟩
        · rw [activeCount_cons_term _ hq, activeCount_cons_term _ hq]
          exact ih'.1
        · intro p hp
          rcases List.mem_cons.1 hp with rfl | hp'
          · intro ha; rw [hq] at ha; exact absurd ha (by simp)
          · exact ih'.2.1 p hp'
        · intro p hp
          rcases List.mem_cons.1 hp with rfl | hp'
          · intro _
            have := hterm p (List.mem_cons_self _ _) hq
            omega
          · exact ih'.2.2.1 p hp'
        · rw [sumRounds_cons, sumRounds_cons, activeCount_cons_term _ hq]
          have := ih'.2.2.2
          omega
      | false =>
        simp only [sweepG, hq]
        have ih' := ih (.seekTwo q) c hq (by simpa [stateInput] using hpar)
          (by simpa [stateInput] using hact) (by simpa [stateInput] using hterm)
        simpa [stateInput] using ih'
    | seekOne =>
      simp only [stateInput] at hpar hact hterm ⊢
      cases hq : q.terminated with
      | true =>
        rw [activeCount_cons_term _ hq] at hpar
        have ih' := ih .seekOne c trivial hpar
          (fun p hp => hact p (List.mem_cons_of_mem _ hp))
          (fun p hp => hterm p (List.mem_cons_of_mem _ hp))
        simp only [stateInput] at ih'
        simp only [sweepG, hq, if_pos]
        refine ⟨?_, ?_, ?_, ?_⟩
        · rw [activeCount_cons_term _ hq, activeCount_cons_term _ hq]
          exact ih'.1
        · intro p hp
          rcases List.mem_cons.1 hp with rfl | hp'
          · intro ha; rw [hq] at ha; exact absurd ha (by simp)
          · exact ih'.2.1 p hp'
        · intro p hp
          rcases List.mem_cons.1 hp with rfl | hp'
          · intro _
            have := hterm p (List.mem_cons_self _ _) hq
            omega
          · exact ih'.2.2.1 p hp'
        · rw [sumRounds_cons, sumRounds_cons, activeCount_cons_term _ hq]
          have := ih'.2.2.2
          omega
      | false =>
        simp only [sweepG, hq]
        have ih' := ih (.seekTwo q) c hq (by simpa [stateInput] using hpar)
          (by simpa [stateInput] using hact) (by simpa [stateInput] using hterm)
        simpa [stateInput] using ih'
    | seekTwo p1 =>
      simp only [stateInput] at hpar hact hterm ⊢
      cases hq : q.terminated with
      | true =>
        have hpar' : activeCount (p1 :: rest) % 2 = 0 := by
          rw [activeCount_cons_act _ hOK] at hpar ⊢
          rw [activeCount_cons_term _ hq] at hpar
          exact hpar
        have hactR : ∀ p ∈ p1 :: rest, p.terminated = false → p.round_index = c := by
          intro p hp
          rcases List.mem_cons.1 hp with rfl | hp'
          · exact hact p (List.mem_cons_self _ _)
          · exact hact p (List.mem_cons_of_mem _ (List.mem_cons_of_mem _ hp'))
        have htermR : ∀ p ∈ p1 :: rest, p.terminated = true → p.round_index < c := by
          intro p hp
          rcases List.mem_cons.1 hp with rfl | hp'
          · exact hterm p (List.mem_cons_self _ _)
          · exact hterm p (List.mem_cons_of_mem _ (List.mem_cons_of_mem _ hp'))
        have ih' := ih (.seekTwo p1) c hOK (by simpa [stateInput] using hpar')
          (by simpa [stateInput] using hactR) (by simpa [stateInput] using htermR)
        simp only [stateInput] at ih'
        have hlen := sweepG_length rest (.seekTwo p1)
        simp only [stateInput, List.length_cons] at hlen
        cases hsw : sweepG (.seekTwo p1) rest with
        | nil => rw [hsw] at hlen; simp at hlen
        | cons p1x tail =>
          rw [hsw] at ih'
          simp only [sweepG, hq, if_pos, hsw]
          have hacq : activeCount (p1x :: q :: tail) = activeCount (p1x :: tail) := by
            simp [activeCount, List.countP_cons, hq]
          have hacin : activeCount (p1 :: q :: rest) = activeCount (p1 :: rest) := by
            simp [activeCount, List.countP_cons, hq]
          refine ⟨?_, ?_, ?_, ?_⟩
          · rw [hacq, hacin]; exact ih'.1
          · intro p hp
            rcases List.mem_cons.1 hp with rfl | hp'
            · exact ih'.2.1 p (List.mem_cons_self _ _)
            · rcases List.mem_cons.1 hp' with rfl | hp2
              · intro ha; rw [hq] at ha; exact absurd ha (by simp)
              · exact ih'.2.1 p (List.mem_cons_of_mem _ hp2)
          · intro p hp
            rcases List.mem_cons.1 hp with rfl | hp'
            · intro hx
              exact ih'.2.2.1 p (List.mem_cons_self _ _) hx
            · rcases List.mem_cons.1 hp' with rfl | hp2
              · intro _
                have := hterm p (List.mem_cons_of_mem _ (List.mem_cons_self _ _)) hq
                omega
              · exact ih'.2.2.1 p (List.mem_cons_of_mem _ hp2)
          · have hsq : sumRounds (p1x :: q :: tail) =
                q.round_index + sumRounds (p1x :: tail) := by
              rw [sumRounds_cons, sumRounds_cons, sumRounds_cons]
              omega
            have hsin : sumRounds (p1 :: q :: rest) =
                q.round_index + sumRounds (p1 :: rest) := by
              rw [sumRounds_cons, sumRounds_cons, sumRounds_cons]
              omega
            rw [hsq, hsin, hacin]
            have := ih'.2.2.2
            omega
      | false =>
        have hpar' : activeCount rest % 2 = 0 := by
          rw [activeCount_cons_act _ hOK, activeCount_cons_act _ hq] at hpar
          omega
        have ih' := ih .entry c trivial hpar'
          (fun p hp => hact p (List.mem_cons_of_mem _ (List.mem_cons_of_mem _ hp)))
          (fun p hp => hterm p (List.mem_cons_of_mem _ (List.mem_cons_of_mem _ hp)))
        simp only [stateInput] at ih'
        have hp1c : p1.round_index = c := hact p1 (List.mem_cons_self _ _) hOK
        have hqc : q.round_index = c :=
          hact q (List.mem_cons_of_mem _ (List.mem_cons_self _ _)) hq
        have hacin : activeCount (p1 :: q :: rest) = activeCount rest + 2 := by
          rw [activeCount_cons_act _ hOK, activeCount_cons_act _ hq]
        have hsin : sumRounds (p1 :: q :: rest) =
            p1.round_index + q.round_index + sumRounds rest := by
          rw [sumRounds_cons, sumRounds_cons]
          omega
        have hred : sweepG (SweepState.seekTwo p1) (q :: rest) =
            (playMatch p1 q).1 :: (playMatch p1 q).2 :: sweepG SweepState.entry rest := by
          simp [sweepG, hq]
        rw [hred]
        rcases playMatch_spec p1 q hOK hq with ⟨ha, hb, hc, hd⟩ | ⟨ha, hb, hc, hd⟩
        · refine ⟨?_, ?_, ?_, ?_⟩
          · rw [activeCount_cons_act _ ha, activeCount_cons_term _ hb, hacin]
            have := ih'.1
            omega
          · intro p hp
            rcases List.mem_cons.1 hp with rfl | hp'
            · intro _; rw [hc, hp1c]
            · rcases List.mem_cons.1 hp' with rfl | hp2
              · intro hx; rw [hb] at hx; exact absurd hx (by simp)
              · exact ih'.2.1 p hp2
          · intro p hp
            rcases List.mem_cons.1 hp with rfl | hp'
            · intro hx; rw [ha] at hx; exact absurd hx (by simp)
            · rcases List.mem_cons.1 hp' with rfl | hp2
              · intro _; rw [hd, hqc]; omega
              · exact ih'.2.2.1 p hp2
          · rw [sumRounds_cons, sumRounds_cons, hc, hd, hp1c, hqc, hsin, hacin,
              hp1c, hqc]
            have := ih'.2.2.2
            omega
        · refine ⟨?_, ?_, ?_, ?_⟩
          · rw [activeCount_cons_term _ ha, activeCount_cons_act _ hb, hacin]
            have := ih'.1
            omega
          · intro p hp
            rcases List.mem_cons.1 hp with rfl | hp'
            · intro hx; rw [ha] at hx; exact absurd hx (by simp)
            · rcases List.mem_cons.1 hp' with rfl | hp2
              · intro _; rw [hd, hqc]
              · exact ih'.2.1 p hp2
          · intro p hp
            rcases List.mem_cons.1 hp with rfl | hp'
            · intro _; rw [hc, hp1c]; omega
            · rcases List.mem_cons.1 hp' with rfl | hp2
              · intro hx; rw [hb] at hx; exact absurd hx (by simp)
              · exact ih'.2.2.1 p hp2
          · rw [sumRounds_cons, sumRounds_cons, hc, hd, hp1c, hqc, hsin, hacin,
              hp1c, hqc]
            have := ih'.2.2.2
            omega

/-- The guarded `play_round` on standings with an even number of active
players: active count halves, survivors move from round `c` to `c+1`,
eliminated players stay below `c+1`, the `round_index` total grows by the
number of matches, and the length is unchanged. -/
theorem play_round_model_inv (r c : Nat) (l : List SimPlayer)
    (hpar : activeCount l % 2 = 0)
    (hact : ∀ p ∈ l, p.terminated = false → p.round_index = c)
    (hterm : ∀ p ∈ l, p.terminated = true → p.round_index < c) :
    2 * activeCount (play_round_model r l) = activeCount l ∧
    (∀ p ∈ play_round_model r l, p.terminated = false → p.round_index = c + 1) ∧
    (∀ p ∈ play_round_model r l, p.terminated = true → p.round_index < c + 1) ∧
    2 * sumRounds (play_round_model r l) = 2 * sumRounds l + activeCount l ∧
    (play_round_model r l).length = l.length := by
  have h := sweepG_even (assignOdds r l) .entry c trivial
    (show activeCount (assignOdds r l) % 2 = 0 by
      rw [activeCount_assignOdds]; exact hpar)
    (forall_assignOdds (P := fun t i => t = false → i = c) hact)
    (forall_assignOdds (P := fun t i => t = true → i < c) hterm)
  simp only [stateInput] at h
  rw [activeCount_assignOdds, sumRounds_assignOdds] at h
  have hlen := sweepG_length (assignOdds r l) .entry
  simp only [stateInput] at hlen
  rw [length_assignOdds] at hlen
  exact ⟨h.1, h.2.1, h.2.2.1, h.2.2.2, hlen⟩

/-- The guarded `play_draw` on standings whose active count is `2^k` for
`k` rounds: exactly one player stays active, having survived every round;
everyone else is below; the `round_index` total grows to account for the
`2^k − 1` matches; the length is unchanged. -/
theorem play_draw_model_inv : ∀ (rounds : List Nat) (l : List SimPlayer) (c : Nat),
    activeCount l = 2 ^ rounds.length →
    (∀ p ∈ l, p.terminated = false → p.round_index = c) →
    (∀ p ∈ l, p.terminated = true → p.round_index < c) →
    activeCount (play_draw_model rounds l) = 1 ∧
    (∀ p ∈ play_draw_model rounds l, p.terminated = false →
      p.round_index = c + rounds.length) ∧
    (∀ p ∈ play_draw_model rounds l, p.terminated = true →
      p.round_index < c + rounds.length) ∧
    sumRounds (play_draw_model rounds l) + 1 = sumRounds l + 2 ^ rounds.length ∧
    (play_draw_model rounds l).length = l.length := by
  intro rounds
  induction rounds with
  | nil =>
    intro l c hac hact hterm
    refine ⟨by simpa using hac, ?_, ?_, by simp [play_draw_model], rfl⟩
    · intro p hp ht
      have := hact p hp ht
      simpa using this
    · intro p hp ht
      have := hterm p hp ht
      simpa using this
  | cons r rs ih =>
    intro l c hac hact hterm
    have h2 : 2 ^ (rs.length + 1) = 2 * 2 ^ rs.length := by ring
    rw [List.length_cons] at hac
    have hpar : activeCount l % 2 = 0 := by omega
    have hstep := play_round_model_inv r c l hpar hact hterm
    have hac' : activeCount (play_round_model r l) = 2 ^ rs.length := by
      have := hstep.1
      omega
    have ihh := ih (play_round_model r l) (c + 1) hac' hstep.2.1 hstep.2.2.1
    have hfold : play_draw_model (r :: rs) l = play_draw_model rs (play_round_model r l) :=
      rfl
    rw [hfold, List.length_cons]
    refine ⟨ihh.1, ?_, ?_, ?_, ?_⟩
    · intro p hp ht
      have := ihh.2.1 p hp ht
      omega
    · intro p hp ht
      have := ihh.2.2.1 p hp ht
      omega
    · have hs1 := ihh.2.2.2.1
      have hs2 := hstep.2.2.2.1
      omega
    · rw [ihh.2.2.2.2, hstep.2.2.2.2]

theorem activeCount_initStandings (rows : List DrawRow) :
    activeCount (initStandings rows) = rows.length := by
  rw [activeCount, initStandings, List.countP_map]
  rw [show ((fun p => !p.terminated) ∘ fun (x : DrawRow) =>
      (⟨x.player, x.seed, x.probs, -1, false, 0⟩ : SimPlayer)) = fun _ => true from rfl]
  simp [List.countP_true]

theorem sumRounds_initStandings (rows : List DrawRow) :
    sumRounds (initStandings rows) = 0 := by
  rw [sumRounds, initStandings, List.map_map]
  rw [show (SimPlayer.round_index ∘ fun (x : DrawRow) =>
      (⟨x.player, x.seed, x.probs, -1, false, 0⟩ : SimPlayer)) = fun _ => 0 from rfl]
  simp

/-- C3 counterexample: a 4-competitor bracket (k = 2) with pairwise
distinct per-round probabilities on which `play_draw` of
`src/sportpools/emulator.py` raises `IndexError` in round 2: the winner of
round 1's last match sits before an eliminated player, so the trailing
scan for the next `player_one` runs past the end of the standings.  The
simulation aborts instead of producing the claimed rounds-survived
outcome. -/
theorem c3_bracket_counterexample :
    play_draw [0, 1] (initStandings
      [⟨"a", 0, [2, 5]⟩, ⟨"b", 0, [1, 1]⟩, ⟨"c", 0, [4, 6]⟩, ⟨"d", 0, [3, 2]⟩]) =
      .error .indexOutOfRange := rfl

/-- C3 amended: for a bracket of `2^k` competitors with pairwise-distinct
per-round probabilities, the guarded `play_draw`
(`src/sportpools/model/emulator.py`) leaves exactly one competitor with
`round_index = k`, every other competitor strictly below `k`, and the
`round_index` total equal to `2^k − 1`; the unguarded variant
(`src/sportpools/emulator.py`) instead raises `IndexError` whenever, in
some round, every position after the round's last match winner holds an
eliminated player (see the counterexample). -/
theorem c3_bracket_model (k : Nat) (rows : List DrawRow)
    (hlen : rows.length = 2 ^ k)
    (hdist : ∀ r < k, (rows.map fun x => x.probs.getD r 0).Pairwise (· ≠ ·)) :
    (play_draw_model (List.range k) (initStandings rows)).countP
        (fun p => decide (p.round_index = k)) = 1 ∧
    (∀ p ∈ play_draw_model (List.range k) (initStandings rows), p.round_index ≤ k) ∧
    sumRounds (play_draw_model (List.range k) (initStandings rows)) = 2 ^ k - 1 := by
  have hac : activeCount (initStandings rows) = 2 ^ (List.range k).length := by
    rw [activeCount_initStandings, hlen, List.length_range]
  have hact : ∀ p ∈ initStandings rows, p.terminated = false → p.round_index = 0 := by
    intro p hp _
    obtain ⟨x, hx, he⟩ := List.mem_map.1 hp
    rw [← he]
  have hterm : ∀ p ∈ initStandings rows, p.terminated = true → p.round_index < 0 := by
    intro p hp ht
    obtain ⟨x, hx, he⟩ := List.mem_map.1 hp
    rw [← he] at ht
    exact absurd ht (by simp)
  have hinv := play_draw_model_inv (List.range k) (initStandings rows) 0 hac hact hterm
  rw [List.length_range, sumRounds_initStandings] at hinv
  have hpow : 1 ≤ 2 ^ k := Nat.one_le_two_pow
  refine ⟨?_, ?_, by omega⟩
  · have hcong : ∀ p ∈ play_draw_model (List.range k) (initStandings rows),
        (decide (p.round_index = k) = true ↔ (!p.terminated) = true) := by
      intro p hp
      cases hpt : p.terminated with
      | false =>
        have := hinv.2.1 p hp hpt
        simp [this]
      | true =>
        have := hinv.2.2.1 p hp hpt
        simp
        omega
    rw [List.countP_congr hcong]
    exact hinv.1
  · intro p hp
    cases hpt : p.terminated with
    | false => have := hinv.2.1 p hp hpt; omega
    | true => have := hinv.2.2.1 p hp hpt; omega

/-- Closed witness for `c3_bracket_model`: the same 4-competitor bracket
as the counterexample, under the guarded variant. -/
theorem c3_bracket_model_witness :
    ([⟨"a", 0, [2, 5]⟩, ⟨"b", 0, [1, 1]⟩, ⟨"c", 0, [4, 6]⟩,
        ⟨"d", 0, [3, 2]⟩] : List DrawRow).length = 2 ^ 2 ∧
    (∀ r < 2, (([⟨"a", 0, [2, 5]⟩, ⟨"b", 0, [1, 1]⟩, ⟨"c", 0, [4, 6]⟩,
        ⟨"d", 0, [3, 2]⟩] : List DrawRow).map fun x => x.probs.getD r 0).Pairwise (· ≠ ·)) ∧
    ((play_draw_model (List.range 2) (initStandings [⟨"a", 0, [2, 5]⟩, ⟨"b", 0, [1, 1]⟩,
          ⟨"c", 0, [4, 6]⟩, ⟨"d", 0, [3, 2]⟩])).countP
        (fun p => decide (p.round_index = 2)) = 1 ∧
      (∀ p ∈ play_draw_model (List.range 2) (initStandings [⟨"a", 0, [2, 5]⟩, ⟨"b", 0, [1, 1]⟩,
          ⟨"c", 0, [4, 6]⟩, ⟨"d", 0, [3, 2]⟩]), p.round_index ≤ 2) ∧
      sumRounds (play_draw_model (List.range 2) (initStandings [⟨"a", 0, [2, 5]⟩, ⟨"b", 0, [1, 1]⟩,
          ⟨"c", 0, [4, 6]⟩, ⟨"d", 0, [3, 2]⟩])) = 2 ^ 2 - 1) :=
  ⟨by decide, by decide,
    c3_bracket_model 2 [⟨"a", 0, [2, 5]⟩, ⟨"b", 0, [1, 1]⟩, ⟨"c", 0, [4, 6]⟩,
      ⟨"d", 0, [3, 2]⟩] (by decide) (by decide)⟩

/-- With an odd number of active players ahead (state `entry`/`seekOne`),
or an even number ahead while one player is pending (state `seekTwo`), the
unguarded sweep always runs past the end of the standings and raises. -/
theorem sweepE_odd : ∀ (l : List SimPlayer) (s : SweepState),
    (match s with
      | .seekTwo _ => activeCount l % 2 = 0
      | _ => activeCount l % 2 = 1) →
    sweepE s l = .error .indexOutOfRange := by
  intro l
  induction l with
  | nil =>
    intro s h
    cases s with
    | entry => exact absurd h (by decide)
    | seekOne => rfl
    | seekTwo p1 => rfl
  | cons q rest ih =>
    intro s h
    cases s with
    | entry =>
      cases hq : q.terminated with
      | true =>
        have h' : activeCount rest % 2 = 1 := by
          rw [activeCount_cons_term _ hq] at h; exact h
        simp [sweepE, hq, ih .seekOne h', Functor.map, Except.map]
      | false =>
        have h' : activeCount rest % 2 = 0 := by
          rw [activeCount_cons_act _ hq] at h; omega
        simp only [sweepE, hq]
        exact ih (.seekTwo q) h'
    | seekOne =>
      cases hq : q.terminated with
      | true =>
        have h' : activeCount rest % 2 = 1 := by
          rw [activeCount_cons_term _ hq] at h; exact h
        simp [sweepE, hq, ih .seekOne h', Functor.map, Except.map]
      | false =>
        have h' : activeCount rest % 2 = 0 := by
          rw [activeCount_cons_act _ hq] at h; omega
        simp only [sweepE, hq]
        exact ih (.seekTwo q) h'
    | seekTwo p1 =>
      cases hq : q.terminated with
      | true =>
        have h' : activeCount rest % 2 = 0 := by
          rw [activeCount_cons_term _ hq] at h; exact h
        simp [sweepE, hq, ih (.seekTwo p1) h', Functor.map, Except.map]
      | false =>
        have h' : activeCount rest % 2 = 1 := by
          rw [activeCount_cons_act _ hq] at h; omega
        simp [sweepE, hq, ih .entry h', Functor.map, Except.map]

/-- C5 amended: when an odd number of still-active competitors enters a
round, `play_round` of `src/sportpools/emulator.py` fails — but with the
interpreter's unstructured `IndexError` from reading past the end of the
standings, not a structured malformed-bracket error naming the round —
while `play_round` of `src/sportpools/model/emulator.py` swallows that
error and silently completes the round with the last active competitor
left unpaired (see the counterexample). -/
theorem c5_odd_round (r : Nat) (l : List SimPlayer)
    (hodd : activeCount l % 2 = 1) :
    play_round r l = .error .indexOutOfRange ∧
    (play_round_model r l).length = l.length := by
  constructor
  · have h : activeCount (assignOdds r l) % 2 = 1 := by
      rw [activeCount_assignOdds]; exact hodd
    exact sweepE_odd (assignOdds r l) .entry h
  · have hl := sweepG_length (assignOdds r l) .entry
    simp only [stateInput] at hl
    rw [length_assignOdds] at hl
    exact hl

/-- C5 counterexample: a round entered by 3 active competitors, on which
the guarded `play_round` (`src/sportpools/model/emulator.py`) raises no
error of any kind: it silently completes the round, pairing the first two
active competitors and leaving the third untouched. -/
theorem c5_counterexample :
    play_round_model 0 (initStandings [⟨"a", 0, [2]⟩, ⟨"b", 0, [1]⟩, ⟨"c", 0, [3]⟩]) =
      [⟨"a", 0, [2], 2, false, 1⟩, ⟨"b", 0, [1], 1, true, 0⟩,
        ⟨"c", 0, [3], 3, false, 0⟩] := by
  decide

/-- Closed witness for `c5_odd_round` on the 3-competitor round. -/
theorem c5_odd_round_witness :
    activeCount (initStandings [⟨"a", 0, [2]⟩, ⟨"b", 0, [1]⟩, ⟨"c", 0, [3]⟩]) % 2 = 1 ∧
    (play_round 0 (initStandings [⟨"a", 0, [2]⟩, ⟨"b", 0, [1]⟩, ⟨"c", 0, [3]⟩]) =
        .error .indexOutOfRange ∧
      (play_round_model 0 (initStandings
          [⟨"a", 0, [2]⟩, ⟨"b", 0, [1]⟩, ⟨"c", 0, [3]⟩])).length =
        (initStandings [⟨"a", 0, [2]⟩, ⟨"b", 0, [1]⟩, ⟨"c", 0, [3]⟩]).length) :=
  ⟨by decide, c5_odd_round 0 _ (by decide)⟩

/-- C10: in a match between two paired active competitors with exactly
equal round odds, `player_one > player_two` is false, so the first
(earlier-positioned) competitor is terminated and the second advances with
its `round_index` incremented — in the match step and in a full
two-player round of both emulator variants. -/
theorem c10_tie_second_advances (p1 p2 : SimPlayer)
    (ho : p1.round_odds = p2.round_odds)
    (h1 : p1.terminated = false) (h2 : p2.terminated = false) :
    playMatch p1 p2 = ({ p1 with terminated := true },
      { p2 with round_index := p2.round_index + 1 }) ∧
    sweepG .entry [p1, p2] =
      [{ p1 with terminated := true }, { p2 with round_index := p2.round_index + 1 }] ∧
    sweepE .entry [p1, p2] = .ok
      [{ p1 with terminated := true }, { p2 with round_index := p2.round_index + 1 }] := by
  have hm : playMatch p1 p2 = ({ p1 with terminated := true },
      { p2 with round_index := p2.round_index + 1 }) := by
    unfold playMatch playerGT
    rw [if_neg]
    simp [ho]
  refine ⟨hm, ?_, ?_⟩
  · simp [sweepG, h1, h2, hm]
  · simp [sweepE, h1, h2, hm, Functor.map, Except.map]

/-- Closed witness for `c10_tie_second_advances` on two concrete players
with equal odds. -/
theorem c10_tie_second_advances_witness :
    ((⟨"x", 1, [], 5, false, 3⟩ : SimPlayer).round_odds =
        (⟨"y", 2, [], 5, false, 3⟩ : SimPlayer).round_odds ∧
      (⟨"x", 1, [], 5, false, 3⟩ : SimPlayer).terminated = false ∧
      (⟨"y", 2, [], 5, false, 3⟩ : SimPlayer).terminated = false) ∧
    (playMatch ⟨"x", 1, [], 5, false, 3⟩ ⟨"y", 2, [], 5, false, 3⟩ =
        ({ (⟨"x", 1, [], 5, false, 3⟩ : SimPlayer) with terminated := true },
          { (⟨"y", 2, [], 5, false, 3⟩ : SimPlayer) with round_index :=
            (⟨"y", 2, [], 5, false, 3⟩ : SimPlayer).round_index + 1 }) ∧
      sweepG .entry [⟨"x", 1, [], 5, false, 3⟩, ⟨"y", 2, [], 5, false, 3⟩] =
        [{ (⟨"x", 1, [], 5, false, 3⟩ : SimPlayer) with terminated := true },
          { (⟨"y", 2, [], 5, false, 3⟩ : SimPlayer) with round_index :=
            (⟨"y", 2, [], 5, false, 3⟩ : SimPlayer).round_index + 1 }] ∧
      sweepE .entry [⟨"x", 1, [], 5, false, 3⟩, ⟨"y", 2, [], 5, false, 3⟩] = .ok
        [{ (⟨"x", 1, [], 5, false, 3⟩ : SimPlayer) with terminated := true },
          { (⟨"y", 2, [], 5, false, 3⟩ : SimPlayer) with round_index :=
            (⟨"y", 2, [], 5, false, 3⟩ : SimPlayer).round_index + 1 }]) :=
  ⟨⟨rfl, rfl, rfl⟩,
    c10_tie_second_advances ⟨"x", 1, [], 5, false, 3⟩ ⟨"y", 2, [], 5, false, 3⟩ rfl rfl rfl⟩
